import Mathlib

/-!
Verification of the DISANA histogramming core (src/DreamAN/DrawHist/DISANAMath.h).

The C++ source manipulates IEEE doubles. Every double value that the bin
search, accumulation and normalization pipeline touches is a rational
number and all the operations on that path are field operations, so the
pipeline is embedded over the rationals. The only irrational operations
in the file, square roots and atan2, are embedded over the reals via
Real.sqrt and the complex argument function.
-/

namespace DISANA

/-! ### Definitions -/

/-- Position of the iterator returned by std upper_bound, counted from the
start of the edge list: the length of the maximal prefix of elements that
are at most v. For a sorted list this is exactly the index std upper_bound
computes. -/
def upperBoundIdx (edges : List ℚ) (v : ℚ) : ℕ :=
  (edges.takeWhile (fun e => decide (e ≤ v))).length

/-- The findBin lambda of ComputeDVCS_CrossSection (DISANAMath.h lines
230 to 234): upper_bound search over the edge list; it returns -1 when the
iterator is at the beginning or at the end of the range and otherwise
the 0-based bin index, namely the iterator position minus one. -/
def findBin (v : ℚ) (edges : List ℚ) : ℤ :=
  let i := upperBoundIdx edges v
  if i = 0 ∨ i = edges.length then -1 else (i : ℤ) - 1

/-- Embedding of the THnSparseD correction table: four axis edge lists and
the sparse per-bin contents, stored as an association list from the
4-tuple of ROOT axis bin numbers to the stored factor. A bin with no
entry has content 0, which is what THnSparseD GetBinContent returns for a
bin that was never filled. -/
structure CorrTable where
  axQ2 : List ℚ
  axT : List ℚ
  axXb : List ℚ
  axPhi : List ℚ
  entries : List ((ℕ × ℕ × ℕ × ℕ) × ℚ)

/-- TAxis FindBin on a variable-bin axis: 0 for underflow (x below the
first edge), k when edge (k-1) is at most x and x is below edge k, and
the overflow bin number when x is at or above the last edge. On a sorted
edge list this binary search result coincides with the upper-bound
index. -/
def axisFindBin (edges : List ℚ) (x : ℚ) : ℕ :=
  upperBoundIdx edges x

/-- The stored entry of the table at a 4-tuple of axis bin numbers, if
any. -/
def tableEntry (tbl : CorrTable) (bins : ℕ × ℕ × ℕ × ℕ) : Option ℚ :=
  (tbl.entries.find? (fun e => decide (e.1 = bins))).map Prod.snd

/-- THnSparseD GetBinContent at a 4-tuple of axis bin numbers: the stored
factor, or 0 when the bin was never filled. -/
def sparseGetBinContent (tbl : CorrTable) (bins : ℕ × ℕ × ℕ × ℕ) : ℚ :=
  (tableEntry tbl bins).getD 0

/-- The 4-tuple of axis bin numbers enclosing a query point. -/
def lookupBins (tbl : CorrTable) (Q2 t xB phi : ℚ) : ℕ × ℕ × ℕ × ℕ :=
  (axisFindBin tbl.axQ2 Q2, axisFindBin tbl.axT t,
   axisFindBin tbl.axXb xB, axisFindBin tbl.axPhi phi)

/-- GetCorrectionFactor (DISANAMath.h lines 118 to 125): 1.0 when the
correction is disabled or no table is loaded, otherwise the table content
at the bin enclosing the query point. -/
def GetCorrectionFactor (applyCorrection : Bool) (correctionHist : Option CorrTable)
    (Q2 t xB phi : ℚ) : ℚ :=
  match applyCorrection, correctionHist with
  | false, _ => 1
  | true, none => 1
  | true, some tbl => sparseGetBinContent tbl (lookupBins tbl Q2 t xB phi)

/-- One row of the dataframe as consumed by the filler lambda: the four
columns Q2, t, xB and phi read by df.Foreach. -/
structure Event where
  Q2 : ℚ
  t : ℚ
  xB : ℚ
  phi : ℚ

/-- BinManager (lines 38 to 58): the three classifier edge lists. -/
structure BinManager where
  q2_bins : List ℚ
  t_bins : List ℚ
  xb_bins : List ℚ

/-- The edges installed by the default BinManager constructor (lines 40
to 44). -/
def defaultBins : BinManager :=
  ⟨[1, 2, 4, 6], [1/10, 3/10, 3/5, 1], [1/10, 1/5, 2/5, 3/5]⟩

/-- ROOT bin number in a TH1D with 18 uniform bins on the range 0 to 360:
0 is the underflow bin, 19 the overflow bin, and an in-range phi lands in
bin 1 + floor(18 * phi / 360). -/
def rootBin (phi : ℚ) : ℕ :=
  if phi < 0 then 0
  else if 360 ≤ phi then 19
  else 1 + (Int.toNat ⌊phi * 18 / 360⌋)

/-- The grid of raw (unnormalized) angular histograms built by
ComputeDVCS_CrossSection, addressed by (ix, iq, it) exactly like
histograms[ix][iq][it] in the source; each histogram maps a ROOT bin
number to its accumulated content. -/
def RawGrid : Type := ℕ × ℕ × ℕ → ℕ → ℚ

def initGrid : RawGrid := fun _ _ => 0

/-- The filler lambda (lines 236 to 250) for one event: locate the three
classifier bins with findBin; when all three are in range, add the weight
of the event to the phi bin of the histogram of cell (ix, iq, it), else
leave the grid unchanged. The weight function w abstracts the factor the
filler computes per event; the source uses GetCorrectionFactor when the
correction is enabled with a loaded table and 1.0 otherwise, divided by a
bin-size constant fixed at 1. -/
def fillEvent (q2e te xbe : List ℚ) (w : Event → ℚ) (g : RawGrid) (ev : Event) : RawGrid :=
  fun p b =>
    if (0 ≤ findBin ev.Q2 q2e ∧ 0 ≤ findBin ev.t te ∧ 0 ≤ findBin ev.xB xbe) ∧
        p = ((findBin ev.xB xbe).toNat, (findBin ev.Q2 q2e).toNat, (findBin ev.t te).toNat) ∧
        b = rootBin ev.phi
    then g p b + w ev
    else g p b

/-- Accumulation over the whole event stream (the df.Foreach call). -/
def accumulate (q2e te xbe : List ℚ) (w : Event → ℚ) (events : List Event) : RawGrid :=
  events.foldl (fillEvent q2e te xbe w) initGrid

/-- A finalized histogram: the arrays written by SetBinContent and
SetBinError. -/
structure FinHist where
  content : ℕ → ℚ
  error : ℕ → ℝ

/-- The normalization pass (lines 255 to 269): for each ROOT bin b from 1
to 18 the content becomes raw/(luminosity*binWidth) and the error becomes
sqrt(raw)/(luminosity*binWidth) with binWidth = (360-0)/18 = 20. The
underflow and overflow bins are not touched by the loop, so their content
stays raw and their error stays the ROOT default, the square root of the
content. -/
noncomputable def normalizeHist (lumi : ℚ) (raw : ℕ → ℚ) : FinHist :=
  ⟨fun b => if 1 ≤ b ∧ b ≤ 18 then raw b / (lumi * 20) else raw b,
   fun b => if 1 ≤ b ∧ b ≤ 18 then Real.sqrt (raw b) / ((lumi : ℝ) * 20)
            else Real.sqrt (raw b)⟩

/-- ComputeDVCS_CrossSection with an abstract per-event weight function:
accumulate the stream into the raw grid, then normalize every histogram. -/
noncomputable def ComputeDVCS_CrossSectionW (q2e te xbe : List ℚ) (w : Event → ℚ)
    (lumi : ℚ) (events : List Event) : ℕ × ℕ × ℕ → FinHist :=
  fun p => normalizeHist lumi (accumulate q2e te xbe w events p)

/-- ComputeDVCS_CrossSection proper (lines 196 to 275): the weight of an
event is the factor computed by the filler, namely GetCorrectionFactor
when the correction is enabled and a table is loaded and 1.0 otherwise,
which is exactly what GetCorrectionFactor returns in every case. -/
noncomputable def ComputeDVCS_CrossSection (applyCorrection : Bool)
    (correctionHist : Option CorrTable) (bins : BinManager) (lumi : ℚ)
    (events : List Event) : ℕ × ℕ × ℕ → FinHist :=
  ComputeDVCS_CrossSectionW bins.q2_bins bins.t_bins bins.xb_bins
    (fun ev => GetCorrectionFactor applyCorrection correctionHist ev.Q2 ev.t ev.xB ev.phi)
    lumi events

/-- Whether the filler accepts the event (all three classifier bins in
range). -/
def inRange (q2e te xbe : List ℚ) (ev : Event) : Bool :=
  decide (0 ≤ findBin ev.Q2 q2e ∧ 0 ≤ findBin ev.t te ∧ 0 ≤ findBin ev.xB xbe)

/-- The grid cell keyed by an in-range event. -/
def cellKey (q2e te xbe : List ℚ) (ev : Event) : ℕ × ℕ × ℕ :=
  ((findBin ev.xB xbe).toNat, (findBin ev.Q2 q2e).toNat, (findBin ev.t te).toNat)

/-- Sum of the weights of the in-range events of the stream that land in
grid cell p and ROOT phi bin b. -/
def binSum (q2e te xbe : List ℚ) (w : Event → ℚ) (events : List Event)
    (p : ℕ × ℕ × ℕ) (b : ℕ) : ℚ :=
  ((events.filter (fun ev =>
      inRange q2e te xbe ev && decide (p = cellKey q2e te xbe ev)
        && decide (b = rootBin ev.phi))).map w).sum

/-- The single event of the end-to-end scenario of the spec. -/
def ev0 : Event := ⟨3/2, 1/5, 3/20, 190⟩

/-- A correction table whose only entry encloses the scenario event and
stores the factor 2. -/
def corrTable2 : CorrTable :=
  ⟨[1, 2, 4, 6], [1/10, 3/10, 3/5, 1], [1/10, 1/5, 2/5, 3/5], [0, 360],
   [((1, 1, 1, 1), 2)]⟩

/-- A loaded correction table with no entries anywhere. -/
def emptyTable : CorrTable := ⟨[0, 1], [0, 1], [0, 1], [0, 360], []⟩

/-- TH1 Divide on bin contents (the ROOT rule): per bin the quotient of
the contents, or 0 when the denominator bin content is 0. This agrees
with the total division of the rationals, where x/0 = 0. -/
def histDivide (a b : ℕ → ℚ) : ℕ → ℚ := fun i => if b i = 0 then 0 else a i / b i

/-- TH1 Multiply on bin contents: the per-bin product. -/
def histMultiply (a b : ℕ → ℚ) : ℕ → ℚ := fun i => a i * b i

/-- The per-cell content chain of CalcPi0Corr (lines 362 to 366): clone
h_dvcs_mc, divide by h_pi0_mc, multiply by h_pi0_data, divide by
h_dvcs_data. -/
def calcPi0CorrCell (dvcs_mc pi0_mc dvcs_data pi0_data : ℕ → ℚ) : ℕ → ℚ :=
  histDivide (histMultiply (histDivide dvcs_mc pi0_mc) pi0_data) dvcs_data

/-- CalcPi0Corr (lines 331 to 373) at the level of the four cross-section
grids derived from its four dataframes: cell by cell the divide,
multiply, divide chain on bin contents. The grids come from
ComputeDVCS_CrossSection, which allocates a histogram in every cell, so
the null-histogram skip branch never fires. -/
def CalcPi0Corr (dvcs_mc pi0_mc dvcs_data pi0_data : ℕ × ℕ × ℕ → ℕ → ℚ) :
    ℕ × ℕ × ℕ → ℕ → ℚ :=
  fun p => calcPi0CorrCell (dvcs_mc p) (pi0_mc p) (dvcs_data p) (pi0_data p)

/-- A TLorentzVector: energy and the three momentum components. -/
structure LV where
  E : ℝ
  px : ℝ
  py : ℝ
  pz : ℝ

noncomputable def LV.sub (a b : LV) : LV := ⟨a.E - b.E, a.px - b.px, a.py - b.py, a.pz - b.pz⟩

/-- TLorentzVector Mag2 with the (+,-,-,-) metric. -/
noncomputable def LV.mag2 (a : LV) : ℝ := a.E^2 - a.px^2 - a.py^2 - a.pz^2

/-- Q2 of ComputeKinematics (line 143): minus the invariant mass squared
of the virtual photon q = electron_in - electron_out. -/
noncomputable def kinQ2 (e_in e_out : LV) : ℝ := -(LV.mag2 (LV.sub e_in e_out))

/-- nu of ComputeKinematics (line 144): the energy component of q. -/
noncomputable def kinNu (e_in e_out : LV) : ℝ := (LV.sub e_in e_out).E

/-- y of ComputeKinematics (line 145): nu over the beam energy. -/
noncomputable def kinY (e_in e_out : LV) : ℝ := kinNu e_in e_out / e_in.E

/-- A TVector3. -/
structure V3 where
  x : ℝ
  y : ℝ
  z : ℝ

noncomputable def V3.sub (a b : V3) : V3 := ⟨a.x - b.x, a.y - b.y, a.z - b.z⟩

noncomputable def V3.dot (a b : V3) : ℝ := a.x * b.x + a.y * b.y + a.z * b.z

noncomputable def V3.cross (a b : V3) : V3 :=
  ⟨a.y * b.z - a.z * b.y, a.z * b.x - a.x * b.z, a.x * b.y - a.y * b.x⟩

noncomputable def V3.mag2 (a : V3) : ℝ := a.x^2 + a.y^2 + a.z^2

noncomputable def V3.smul (c : ℝ) (a : V3) : V3 := ⟨c * a.x, c * a.y, c * a.z⟩

/-- TVector3 Unit: the vector scaled by the inverse of its magnitude, or
the vector itself (hence the zero vector) when the magnitude is zero. -/
noncomputable def V3.unit (a : V3) : V3 :=
  if 0 < a.mag2 then V3.smul (1 / Real.sqrt a.mag2) a else a

/-- Two-argument arctangent with the C library convention, on the reals:
the argument of the complex number x + i y, which lies in (-pi, pi]. -/
noncomputable def atan2 (y x : ℝ) : ℝ := Complex.arg ⟨x, y⟩

/-- The azimuthal angle phi_deg_ computed by ComputeKinematics (lines 150
to 156) as a function of the 3-momenta of the incoming lepton, the
outgoing lepton and the outgoing baryon: the unit normals of the lepton
and hadron planes, the cosine and the signed sine of the angle between
them with the virtual-photon direction fixing the sign, atan2 shifted by
pi, and conversion to degrees. -/
noncomputable def phiDeg (einV eoutV poutV : V3) : ℝ :=
  let q := V3.sub einV eoutV
  let nL := (V3.cross einV eoutV).unit
  let nH := (V3.cross q poutV).unit
  let cphi := nL.dot nH
  let sphi := (V3.cross nL nH).dot q.unit
  (atan2 sphi cphi + Real.pi) * 180 / Real.pi

/-- A TH1D as the asymmetry code sees it: the number of bins and total
maps from the ROOT bin number to the bin content and the bin error. -/
structure Hist where
  nbins : ℕ
  content : ℕ → ℚ
  error : ℕ → ℝ

/-- The heap of histogram objects: storage indexed by abstract addresses
plus the next fresh address. TH1D pointers are addresses into the heap. -/
structure Heap where
  data : ℕ → Hist
  next : ℕ

/-- Allocation (the Clone call): the new object lives at the fresh
address and every existing address keeps its object. -/
def Heap.alloc (st : Heap) (h : Hist) : Heap × ℕ :=
  (⟨fun n => if n = st.next then h else st.data n, st.next + 1⟩, st.next)

/-- The histogram built per cell by ComputeBeamSpinAsymmetry (lines 310
to 322): the clone of hp is reset, and for each ROOT bin b from 1 to
nbins the code stores A/pol with A = (Np-Nm)/(Np+Nm) (0 when the
denominator is 0) and E/pol with E = 2/(Np+Nm)^2 * sqrt((Nm*Ep)^2 +
(Np*Em)^2) (0 when the denominator is 0); all other bins keep the reset
value 0. -/
noncomputable def asymHist (hp hm : Hist) (pol : ℚ) : Hist :=
  ⟨hp.nbins,
   fun b => if 1 ≤ b ∧ b ≤ hp.nbins then
       (if hp.content b + hm.content b ≠ 0 then
         (hp.content b - hm.content b) / (hp.content b + hm.content b) else 0) / pol
     else 0,
   fun b => if 1 ≤ b ∧ b ≤ hp.nbins then
       (if hp.content b + hm.content b ≠ 0 then
         2 / (((hp.content b : ℝ) + (hm.content b : ℝ))
              * ((hp.content b : ℝ) + (hm.content b : ℝ)))
           * Real.sqrt (((hm.content b : ℝ) * hp.error b)^2
              + ((hp.content b : ℝ) * hm.error b)^2)
        else 0) / (pol : ℝ)
     else 0⟩

/-- 3-level grid of TH1D pointers, nullptr as none, mirroring
vector of vector of vector of TH1D pointer. -/
def PtrGrid3 : Type := List (List (List (Option ℕ)))

/-- The diagnostics ComputeBeamSpinAsymmetry prints to cerr: the three
dimension-mismatch errors (with the indices they report) and the
null-histogram warning. -/
inductive BSAErr where
  | xbDim : BSAErr
  | q2Dim : ℕ → BSAErr
  | tDim : ℕ → ℕ → BSAErr
  | nullHist : ℕ → ℕ → ℕ → BSAErr

/-- The innermost loop of ComputeBeamSpinAsymmetry (lines 302 to 324)
over one row of the t dimension: a null pointer on either side emits the
warning and leaves the output cell null; otherwise the clone is allocated
with the asymmetry contents. -/
noncomputable def bsaT (pol : ℚ) (ix iq : ℕ) :
    Heap → ℕ → List (Option ℕ) → List (Option ℕ) →
    Heap × List BSAErr × List (Option ℕ)
  | st, _, [], _ => (st, [], [])
  | st, _, _ :: _, [] => (st, [], [])
  | st, it, some p :: ps, some m :: ms =>
      let r := st.alloc (asymHist (st.data p) (st.data m) pol)
      let rest := bsaT pol ix iq r.1 (it + 1) ps ms
      (rest.1, rest.2.1, some r.2 :: rest.2.2)
  | st, it, none :: ps, _ :: ms =>
      let rest := bsaT pol ix iq st (it + 1) ps ms
      (rest.1, BSAErr.nullHist ix iq it :: rest.2.1, none :: rest.2.2)
  | st, it, some _ :: ps, none :: ms =>
      let rest := bsaT pol ix iq st (it + 1) ps ms
      (rest.1, BSAErr.nullHist ix iq it :: rest.2.1, none :: rest.2.2)

/-- The middle loop over the q2 dimension (lines 294 to 325): each
iteration first checks the t-dimension sizes and aborts the whole
computation on mismatch (the source returns the empty grid), else
processes the row. -/
noncomputable def bsaQ (pol : ℚ) (ix : ℕ) :
    Heap → ℕ → List (List (Option ℕ)) → List (List (Option ℕ)) →
    Heap × List BSAErr × Option (List (List (Option ℕ)))
  | st, _, [], _ => (st, [], some [])
  | st, _, _ :: _, [] => (st, [], some [])
  | st, iq, tp :: ps, tm :: ms =>
      if tp.length ≠ tm.length then (st, [BSAErr.tDim ix iq], none)
      else
        let row := bsaT pol ix iq st 0 tp tm
        let rest := bsaQ pol ix row.1 (iq + 1) ps ms
        (rest.1, row.2.1 ++ rest.2.1,
          match rest.2.2 with
          | some g => some (row.2.2 :: g)
          | none => none)

/-- The outer loop over the xb dimension (lines 286 to 326): each
iteration first checks the q2-dimension sizes and aborts on mismatch,
else processes the plane. -/
noncomputable def bsaX (pol : ℚ) :
    Heap → ℕ → PtrGrid3 → PtrGrid3 → Heap × List BSAErr × Option PtrGrid3
  | st, _, [], _ => (st, [], some [])
  | st, _, _ :: _, [] => (st, [], some [])
  | st, ix, qp :: ps, qm :: ms =>
      if qp.length ≠ qm.length then (st, [BSAErr.q2Dim ix], none)
      else
        let plane := bsaQ pol ix st 0 qp qm
        match plane.2.2 with
        | none => (plane.1, plane.2.1, none)
        | some g2 =>
          let rest := bsaX pol plane.1 (ix + 1) ps ms
          (rest.1, plane.2.1 ++ rest.2.1,
            match rest.2.2 with
            | some g => some (g2 :: g)
            | none => none)

/-- ComputeBeamSpinAsymmetry (lines 278 to 329): check the xb dimension,
then run the nested loops; every abort path returns the empty grid, and
the emitted diagnostics are collected in order. The result is the final
heap, the diagnostics, and the output grid. -/
noncomputable def ComputeBeamSpinAsymmetry (st : Heap) (sigma_pos sigma_neg : PtrGrid3)
    (pol : ℚ) : Heap × List BSAErr × PtrGrid3 :=
  if sigma_pos.length ≠ sigma_neg.length then (st, [BSAErr.xbDim], [])
  else
    let r := bsaX pol st 0 sigma_pos sigma_neg
    match r.2.2 with
    | some g => (r.1, r.2.1, g)
    | none => (r.1, r.2.1, [])

/-- Bin-grid shape equality of the two middle levels. -/
def shapeEq2 : List (List (Option ℕ)) → List (List (Option ℕ)) → Bool
  | [], [] => true
  | a :: as, b :: bs => (a.length == b.length) && shapeEq2 as bs
  | _, _ => false

/-- Bin-grid shape equality of two pointer grids in all three classifier
dimensions. -/
def shapeEq3 : PtrGrid3 → PtrGrid3 → Bool
  | [], [] => true
  | a :: as, b :: bs => shapeEq2 a b && shapeEq3 as bs
  | _, _ => false

/-- Whether a diagnostic is a shape-mismatch error whose reported
dimension and position genuinely differ between the two grids. -/
def mismatchB : BSAErr → PtrGrid3 → PtrGrid3 → Bool
  | BSAErr.xbDim, pos, neg => pos.length != neg.length
  | BSAErr.q2Dim ix, pos, neg => (pos.getD ix []).length != (neg.getD ix []).length
  | BSAErr.tDim ix iq, pos, neg =>
      ((pos.getD ix []).getD iq []).length != ((neg.getD ix []).getD iq []).length
  | BSAErr.nullHist _ _ _, _, _ => false

/-- The pointer stored at cell (ix, iq, it) of a grid. -/
def cellAt (g : PtrGrid3) (ix iq it : ℕ) : Option ℕ :=
  ((g.getD ix []).getD iq []).getD it none

/-- A concrete histogram for witnesses. -/
noncomputable def histW : Hist := ⟨18, fun _ => 3, fun _ => 1⟩

/-- A second concrete histogram for witnesses. -/
noncomputable def histW2 : Hist := ⟨18, fun _ => 1, fun _ => 1⟩

/-- A concrete heap for witnesses: address 0 holds histW, every other
address holds histW2, and the next fresh address is 2. -/
noncomputable def heapW : Heap := ⟨fun n => if n = 0 then histW else histW2, 2⟩

/-- A concrete 1 by 1 by 1 pointer grid at address 0. -/
def posG : PtrGrid3 := [[[some 0]]]

/-- A concrete 1 by 1 by 1 pointer grid at address 1. -/
def negG : PtrGrid3 := [[[some 1]]]

/-! ### Theorems -/

theorem upperBoundIdx_nil (v : ℚ) : upperBoundIdx [] v = 0 := rfl

theorem upperBoundIdx_cons_pos {e v : ℚ} (es : List ℚ) (h : e ≤ v) :
    upperBoundIdx (e :: es) v = upperBoundIdx es v + 1 := by
  simp [upperBoundIdx, List.takeWhile_cons, h]

theorem upperBoundIdx_cons_neg {e v : ℚ} (es : List ℚ) (h : ¬ e ≤ v) :
    upperBoundIdx (e :: es) v = 0 := by
  simp [upperBoundIdx, List.takeWhile_cons, h]

theorem upperBoundIdx_le_length (edges : List ℚ) (v : ℚ) :
    upperBoundIdx edges v ≤ edges.length := by
  induction edges with
  | nil => simp [upperBoundIdx]
  | cons e es ih =>
    by_cases he : e ≤ v
    · simpa [upperBoundIdx_cons_pos es he] using ih
    · simp [upperBoundIdx_cons_neg es he]

theorem le_of_lt_upperBoundIdx (edges : List ℚ) (v : ℚ) :
    ∀ j, j < upperBoundIdx edges v → edges.getD j 0 ≤ v := by
  induction edges with
  | nil => intro j hj; simp [upperBoundIdx] at hj
  | cons e es ih =>
    intro j hj
    by_cases he : e ≤ v
    · rw [upperBoundIdx_cons_pos es he] at hj
      cases j with
      | zero => simpa using he
      | succ k => simpa using ih k (by omega)
    · rw [upperBoundIdx_cons_neg es he] at hj
      omega

theorem lt_of_upperBoundIdx_lt (edges : List ℚ) (v : ℚ)
    (h : upperBoundIdx edges v < edges.length) :
    v < edges.getD (upperBoundIdx edges v) 0 := by
  induction edges with
  | nil => simp [upperBoundIdx] at h
  | cons e es ih =>
    by_cases he : e ≤ v
    · rw [upperBoundIdx_cons_pos es he] at h ⊢
      simpa using ih (by simpa using h)
    · rw [upperBoundIdx_cons_neg es he]
      simpa using lt_of_not_le he

theorem sorted_getD_mono (edges : List ℚ) (hsort : List.Sorted (· < ·) edges)
    {j k : ℕ} (hjk : j ≤ k) (hk : k < edges.length) :
    edges.getD j 0 ≤ edges.getD k 0 := by
  rcases eq_or_lt_of_le hjk with rfl | hlt
  · exact le_refl _
  · have hj : j < edges.length := lt_trans hlt hk
    rw [edges.getD_eq_getElem 0 hj, edges.getD_eq_getElem 0 hk]
    exact le_of_lt (List.pairwise_iff_getElem.mp hsort j k hj hk hlt)

/-- Claim C1: for a strictly increasing edge list with at least two
entries, findBin returns the unique index i with edges i at most v and v
strictly below edges (i+1), and returns the out-of-range marker -1 exactly
when v lies below the first edge or at or above the last edge. -/
theorem findBin_locate (edges : List ℚ) (v : ℚ)
    (hsort : List.Sorted (· < ·) edges) (hlen : 2 ≤ edges.length) :
    (∀ i : ℕ, i + 1 < edges.length →
      (findBin v edges = (i : ℤ) ↔ edges.getD i 0 ≤ v ∧ v < edges.getD (i + 1) 0)) ∧
    (findBin v edges = -1 ↔ v < edges.getD 0 0 ∨ edges.getD (edges.length - 1) 0 ≤ v) := by
  have hub := upperBoundIdx_le_length edges v
  have hF1 := le_of_lt_upperBoundIdx edges v
  constructor
  · intro i hi
    constructor
    · intro hfb
      unfold findBin at hfb
      by_cases hc : upperBoundIdx edges v = 0 ∨ upperBoundIdx edges v = edges.length
      · simp [hc] at hfb
      · simp only [hc, if_false] at hfb
        push_neg at hc
        have hu : upperBoundIdx edges v = i + 1 := by omega
        constructor
        · exact hF1 i (by omega)
        · have := lt_of_upperBoundIdx_lt edges v (by omega)
          rwa [hu] at this
    · rintro ⟨h1, h2⟩
      have hgt : i < upperBoundIdx edges v := by
        by_contra hle
        push_neg at hle
        have hlt' : upperBoundIdx edges v < edges.length := by omega
        have := lt_of_upperBoundIdx_lt edges v hlt'
        have hmono := sorted_getD_mono edges hsort hle (by omega)
        exact absurd h1 (not_le.mpr (lt_of_lt_of_le this hmono))
      have hle2 : upperBoundIdx edges v ≤ i + 1 := by
        by_contra hgt2
        push_neg at hgt2
        exact absurd (hF1 (i + 1) (by omega)) (not_le.mpr h2)
      have hu : upperBoundIdx edges v = i + 1 := by omega
      have hc : ¬(upperBoundIdx edges v = 0 ∨ upperBoundIdx edges v = edges.length) := by
        omega
      show (if upperBoundIdx edges v = 0 ∨ upperBoundIdx edges v = edges.length then (-1 : ℤ)
            else (upperBoundIdx edges v : ℤ) - 1) = (i : ℤ)
      rw [if_neg hc, hu]
      push_cast
      ring
  · constructor
    · intro hfb
      unfold findBin at hfb
      by_cases hc : upperBoundIdx edges v = 0 ∨ upperBoundIdx edges v = edges.length
      · rcases hc with h0 | hL
        · left
          have := lt_of_upperBoundIdx_lt edges v (by omega)
          rwa [h0] at this
        · right
          exact hF1 (edges.length - 1) (by omega)
      · simp only [hc, if_false] at hfb
        push_neg at hc
        omega
    · intro h
      have hc : upperBoundIdx edges v = 0 ∨ upperBoundIdx edges v = edges.length := by
        rcases h with hlow | hhigh
        · left
          by_contra h0
          have := hF1 0 (by omega)
          exact absurd this (not_le.mpr hlow)
        · right
          by_contra hL
          have hlt' : upperBoundIdx edges v < edges.length := by omega
          have hvlt := lt_of_upperBoundIdx_lt edges v hlt'
          have hmono := sorted_getD_mono edges hsort
            (show upperBoundIdx edges v ≤ edges.length - 1 by omega) (by omega)
          exact absurd hhigh (not_le.mpr (lt_of_lt_of_le hvlt hmono))
      unfold findBin
      simp [hc]

/-- Witness for claim C1 at a concrete sorted edge list and value. -/
theorem findBin_locate_witness :
    List.Sorted (· < ·) [(1 : ℚ), 2, 4, 6] ∧ 2 ≤ ([(1 : ℚ), 2, 4, 6]).length ∧
    ((∀ i : ℕ, i + 1 < ([(1 : ℚ), 2, 4, 6]).length →
      (findBin (3/2) [(1 : ℚ), 2, 4, 6] = (i : ℤ) ↔
        ([(1 : ℚ), 2, 4, 6]).getD i 0 ≤ 3/2 ∧ (3/2 : ℚ) < ([(1 : ℚ), 2, 4, 6]).getD (i + 1) 0)) ∧
    (findBin (3/2) [(1 : ℚ), 2, 4, 6] = -1 ↔
      (3/2 : ℚ) < ([(1 : ℚ), 2, 4, 6]).getD 0 0 ∨
      ([(1 : ℚ), 2, 4, 6]).getD (([(1 : ℚ), 2, 4, 6]).length - 1) 0 ≤ 3/2)) :=
  ⟨by decide, by decide, findBin_locate [(1 : ℚ), 2, 4, 6] (3/2) (by decide) (by decide)⟩

theorem fillEvent_apply (q2e te xbe : List ℚ) (w : Event → ℚ) (ev : Event)
    (g : RawGrid) (p : ℕ × ℕ × ℕ) (b : ℕ) :
    fillEvent q2e te xbe w g ev p b
      = g p b + (if (inRange q2e te xbe ev && decide (p = cellKey q2e te xbe ev)
          && decide (b = rootBin ev.phi)) = true then w ev else 0) := by
  simp only [fillEvent, inRange, cellKey, Bool.and_eq_true, decide_eq_true_eq, and_assoc]
  split_ifs with h1
  · rfl
  · exact (add_zero _).symm

theorem binSum_nil (q2e te xbe : List ℚ) (w : Event → ℚ) (p : ℕ × ℕ × ℕ) (b : ℕ) :
    binSum q2e te xbe w [] p b = 0 := by
  simp [binSum]

theorem binSum_cons (q2e te xbe : List ℚ) (w : Event → ℚ) (ev : Event)
    (events : List Event) (p : ℕ × ℕ × ℕ) (b : ℕ) :
    binSum q2e te xbe w (ev :: events) p b
      = (if (inRange q2e te xbe ev && decide (p = cellKey q2e te xbe ev)
          && decide (b = rootBin ev.phi)) = true then w ev else 0)
        + binSum q2e te xbe w events p b := by
  simp only [binSum, List.filter_cons]
  split_ifs with h
  · simp
  · simp

theorem binSum_singleton (q2e te xbe : List ℚ) (w : Event → ℚ) (ev : Event)
    (p : ℕ × ℕ × ℕ) (b : ℕ) :
    binSum q2e te xbe w [ev] p b
      = (if (inRange q2e te xbe ev && decide (p = cellKey q2e te xbe ev)
          && decide (b = rootBin ev.phi)) = true then w ev else 0) := by
  rw [binSum_cons, binSum_nil, add_zero]

theorem accumulate_from (q2e te xbe : List ℚ) (w : Event → ℚ) :
    ∀ (events : List Event) (g : RawGrid) (p : ℕ × ℕ × ℕ) (b : ℕ),
      (events.foldl (fillEvent q2e te xbe w) g) p b
        = g p b + binSum q2e te xbe w events p b := by
  intro events
  induction events with
  | nil => intro g p b; simp [binSum]
  | cons ev evs ih =>
    intro g p b
    rw [List.foldl_cons, ih, fillEvent_apply, binSum_cons]
    ring

theorem accumulate_eq_binSum (q2e te xbe : List ℚ) (w : Event → ℚ)
    (events : List Event) (p : ℕ × ℕ × ℕ) (b : ℕ) :
    accumulate q2e te xbe w events p b = binSum q2e te xbe w events p b := by
  have := accumulate_from q2e te xbe w events initGrid p b
  simpa [accumulate, initGrid] using this

/-- Claim C2 (amended): after accumulation each in-range event has added
its effective weight w to the content of its angular bin, so the raw bin
content is the sum of the accumulated weights; finalize divides the
content by luminosity times the angular bin width, and the uncertainty is
the square root of the raw content (the sum of the accumulated weights,
not the sum of their squares) divided by luminosity times the bin
width. -/
theorem crossSection_normalization (q2e te xbe : List ℚ) (w : Event → ℚ)
    (lumi : ℚ) (events : List Event) (p : ℕ × ℕ × ℕ) (b : ℕ)
    (hb1 : 1 ≤ b) (hb18 : b ≤ 18) :
    (ComputeDVCS_CrossSectionW q2e te xbe w lumi events p).content b
        = binSum q2e te xbe w events p b / (lumi * 20) ∧
    (ComputeDVCS_CrossSectionW q2e te xbe w lumi events p).error b
        = Real.sqrt (binSum q2e te xbe w events p b) / ((lumi : ℝ) * 20) := by
  have hacc := accumulate_eq_binSum q2e te xbe w events p b
  constructor
  · simp [ComputeDVCS_CrossSectionW, normalizeHist, hb1, hb18, hacc]
  · simp [ComputeDVCS_CrossSectionW, normalizeHist, hb1, hb18, hacc]

/-- Witness for the amended claim C2 at a concrete stream. -/
theorem crossSection_normalization_witness :
    1 ≤ 10 ∧ 10 ≤ 18 ∧
    ((ComputeDVCS_CrossSectionW [1, 2, 4, 6] [1/10, 3/10, 3/5, 1] [1/10, 1/5, 2/5, 3/5]
        (fun _ => 1) 1 [ev0] (0, 0, 0)).content 10
      = binSum [1, 2, 4, 6] [1/10, 3/10, 3/5, 1] [1/10, 1/5, 2/5, 3/5]
          (fun _ => 1) [ev0] (0, 0, 0) 10 / (1 * 20) ∧
    (ComputeDVCS_CrossSectionW [1, 2, 4, 6] [1/10, 3/10, 3/5, 1] [1/10, 1/5, 2/5, 3/5]
        (fun _ => 1) 1 [ev0] (0, 0, 0)).error 10
      = Real.sqrt (binSum [1, 2, 4, 6] [1/10, 3/10, 3/5, 1] [1/10, 1/5, 2/5, 3/5]
          (fun _ => 1) [ev0] (0, 0, 0) 10) / (((1 : ℚ) : ℝ) * 20)) :=
  ⟨by decide, by decide,
   crossSection_normalization [1, 2, 4, 6] [1/10, 3/10, 3/5, 1] [1/10, 1/5, 2/5, 3/5]
     (fun _ => 1) 1 [ev0] (0, 0, 0) 10 (by decide) (by decide)⟩

theorem ub_q2_ev0 : upperBoundIdx [1, 2, 4, 6] (3/2 : ℚ) = 1 := by
  rw [upperBoundIdx_cons_pos _ (by norm_num), upperBoundIdx_cons_neg _ (by norm_num)]

theorem ub_t_ev0 : upperBoundIdx [1/10, 3/10, 3/5, 1] (1/5 : ℚ) = 1 := by
  rw [upperBoundIdx_cons_pos _ (by norm_num), upperBoundIdx_cons_neg _ (by norm_num)]

theorem ub_xb_ev0 : upperBoundIdx [1/10, 1/5, 2/5, 3/5] (3/20 : ℚ) = 1 := by
  rw [upperBoundIdx_cons_pos _ (by norm_num), upperBoundIdx_cons_neg _ (by norm_num)]

theorem ub_phi_ev0 : upperBoundIdx [0, 360] (190 : ℚ) = 1 := by
  rw [upperBoundIdx_cons_pos _ (by norm_num), upperBoundIdx_cons_neg _ (by norm_num)]

theorem findBin_ev0_q2 : findBin (3/2) [1, 2, 4, 6] = 0 := by
  simp [findBin, ub_q2_ev0]

theorem findBin_ev0_t : findBin (1/5) [1/10, 3/10, 3/5, 1] = 0 := by
  simp only [findBin]
  rw [ub_t_ev0]
  norm_num

theorem findBin_ev0_xb : findBin (3/20) [1/10, 1/5, 2/5, 3/5] = 0 := by
  simp only [findBin]
  rw [ub_xb_ev0]
  norm_num

theorem rootBin_190 : rootBin 190 = 10 := by
  have hfl : ⌊(190 : ℚ) * 18 / 360⌋ = 9 := by
    rw [show (190 : ℚ) * 18 / 360 = 19/2 by norm_num]
    rw [Int.floor_eq_iff]
    norm_num
  rw [rootBin, if_neg (by norm_num), if_neg (by norm_num), hfl]
  rfl

theorem inRange_ev0 :
    inRange [1, 2, 4, 6] [1/10, 3/10, 3/5, 1] [1/10, 1/5, 2/5, 3/5] ev0 = true := by
  rw [inRange]
  rw [show ev0.Q2 = 3/2 from rfl, show ev0.t = 1/5 from rfl, show ev0.xB = 3/20 from rfl]
  rw [findBin_ev0_q2, findBin_ev0_t, findBin_ev0_xb]
  rfl

theorem cellKey_ev0 :
    cellKey [1, 2, 4, 6] [1/10, 3/10, 3/5, 1] [1/10, 1/5, 2/5, 3/5] ev0 = (0, 0, 0) := by
  rw [cellKey]
  rw [show ev0.Q2 = 3/2 from rfl, show ev0.t = 1/5 from rfl, show ev0.xB = 3/20 from rfl]
  rw [findBin_ev0_q2, findBin_ev0_t, findBin_ev0_xb]
  rfl

theorem corr2_at_ev0 :
    GetCorrectionFactor true (some corrTable2) (3/2) (1/5) (3/20) 190 = 2 := by
  have hbins : lookupBins corrTable2 (3/2) (1/5) (3/20) 190 = (1, 1, 1, 1) := by
    rw [lookupBins]
    rw [show corrTable2.axQ2 = [1, 2, 4, 6] from rfl,
        show corrTable2.axT = [1/10, 3/10, 3/5, 1] from rfl,
        show corrTable2.axXb = [1/10, 1/5, 2/5, 3/5] from rfl,
        show corrTable2.axPhi = [0, 360] from rfl]
    simp only [axisFindBin]
    rw [ub_q2_ev0, ub_t_ev0, ub_xb_ev0, ub_phi_ev0]
  show sparseGetBinContent corrTable2 (lookupBins corrTable2 (3/2) (1/5) (3/20) 190) = 2
  rw [hbins]
  simp [sparseGetBinContent, tableEntry, corrTable2, List.find?]

/-- Counterexample to claim C2 as stated: one event accepted with
effective weight 2 (correction factor 2). The sum of the squared weights
is 4, so the claim predicts the uncertainty sqrt(4)/(1*20); the code takes
the square root of the accumulated content (the sum of the weights, 2) and
yields sqrt(2)/20, which differs. -/
theorem crossSection_error_counterexample :
    (ComputeDVCS_CrossSection true (some corrTable2) defaultBins 1 [ev0] (0, 0, 0)).error 10
      = Real.sqrt 2 / 20 ∧
    Real.sqrt 2 / 20 ≠ Real.sqrt 4 / 20 := by
  constructor
  · have hw : GetCorrectionFactor true (some corrTable2) ev0.Q2 ev0.t ev0.xB ev0.phi = 2 := by
      show GetCorrectionFactor true (some corrTable2) (3/2) (1/5) (3/20) 190 = 2
      exact corr2_at_ev0
    have hraw : accumulate [1, 2, 4, 6] [1/10, 3/10, 3/5, 1] [1/10, 1/5, 2/5, 3/5]
        (fun ev => GetCorrectionFactor true (some corrTable2) ev.Q2 ev.t ev.xB ev.phi)
        [ev0] (0, 0, 0) 10 = 2 := by
      rw [accumulate_eq_binSum, binSum_singleton, inRange_ev0, cellKey_ev0]
      rw [show rootBin ev0.phi = 10 from rootBin_190]
      simp [hw]
    show (normalizeHist 1 (accumulate [1, 2, 4, 6] [1/10, 3/10, 3/5, 1] [1/10, 1/5, 2/5, 3/5]
        (fun ev => GetCorrectionFactor true (some corrTable2) ev.Q2 ev.t ev.xB ev.phi)
        [ev0] (0, 0, 0))).error 10 = Real.sqrt 2 / 20
    simp only [normalizeHist, hraw]
    norm_num
  · intro h
    have h24 : Real.sqrt 2 < Real.sqrt 4 := by
      apply Real.sqrt_lt_sqrt <;> norm_num
    have h20 : (0 : ℝ) < 20 := by norm_num
    exact absurd h (ne_of_lt (div_lt_div_of_pos_right h24 h20))

/-- Claim C5: feeding the single scenario event with classifier values
(1.5, 0.2, 0.15), angle 190 and weight 1 into an empty grid with the
default edges and finalizing with luminosity 1 yields content
1/(1*20) = 0.05 in ROOT bin 10 (0-based angular bin index 9) of grid cell
(0,0,0) and content 0 in every other angular bin of every cell. -/
theorem endToEnd_singleEvent (ix iq it b : ℕ) (hb1 : 1 ≤ b) (hb18 : b ≤ 18) :
    (ComputeDVCS_CrossSection false none defaultBins 1 [ev0] (ix, iq, it)).content b
      = if (ix, iq, it) = ((0 : ℕ), (0 : ℕ), (0 : ℕ)) ∧ b = 10 then 1/20 else 0 := by
  have hw : (fun ev => GetCorrectionFactor false none ev.Q2 ev.t ev.xB ev.phi)
      = fun _ : Event => (1 : ℚ) := rfl
  have hsum : binSum [1, 2, 4, 6] [1/10, 3/10, 3/5, 1] [1/10, 1/5, 2/5, 3/5]
      (fun _ : Event => (1 : ℚ)) [ev0] (ix, iq, it) b
      = if (ix, iq, it) = ((0 : ℕ), (0 : ℕ), (0 : ℕ)) ∧ b = 10 then 1 else 0 := by
    rw [binSum_singleton, inRange_ev0, cellKey_ev0]
    rw [show rootBin ev0.phi = 10 from rootBin_190]
    by_cases h : (ix, iq, it) = ((0 : ℕ), (0 : ℕ), (0 : ℕ)) ∧ b = 10
    · simp [h.1, h.2]
    · rcases not_and_or.mp h with h1 | h2
      · simp [h1, h]
      · simp [h2, h]
  show (normalizeHist 1 (accumulate defaultBins.q2_bins defaultBins.t_bins defaultBins.xb_bins
      (fun ev => GetCorrectionFactor false none ev.Q2 ev.t ev.xB ev.phi) [ev0]
      (ix, iq, it))).content b
      = if (ix, iq, it) = ((0 : ℕ), (0 : ℕ), (0 : ℕ)) ∧ b = 10 then 1/20 else 0
  rw [hw]
  have hacc := accumulate_eq_binSum defaultBins.q2_bins defaultBins.t_bins defaultBins.xb_bins
    (fun _ : Event => (1 : ℚ)) [ev0] (ix, iq, it) b
  rw [show defaultBins.q2_bins = [1, 2, 4, 6] from rfl,
      show defaultBins.t_bins = [1/10, 3/10, 3/5, 1] from rfl,
      show defaultBins.xb_bins = [1/10, 1/5, 2/5, 3/5] from rfl] at hacc ⊢
  simp only [normalizeHist]
  rw [if_pos ⟨hb1, hb18⟩, hacc, hsum]
  by_cases h : (ix, iq, it) = ((0 : ℕ), (0 : ℕ), (0 : ℕ)) ∧ b = 10
  · rw [if_pos h, if_pos h]
    norm_num
  · rw [if_neg h, if_neg h]
    simp

/-- Witness for claim C5 at the populated cell and bin. -/
theorem endToEnd_singleEvent_witness :
    1 ≤ 10 ∧ 10 ≤ 18 ∧
    (ComputeDVCS_CrossSection false none defaultBins 1 [ev0] (0, 0, 0)).content 10
      = if ((0 : ℕ), (0 : ℕ), (0 : ℕ)) = ((0 : ℕ), (0 : ℕ), (0 : ℕ)) ∧ 10 = 10
        then 1/20 else 0 :=
  ⟨by decide, by decide, endToEnd_singleEvent 0 0 0 10 (by decide) (by decide)⟩

theorem lookupBins_corr2 : lookupBins corrTable2 (3/2) (1/5) (3/20) 190 = (1, 1, 1, 1) := by
  rw [lookupBins]
  rw [show corrTable2.axQ2 = [1, 2, 4, 6] from rfl,
      show corrTable2.axT = [1/10, 3/10, 3/5, 1] from rfl,
      show corrTable2.axXb = [1/10, 1/5, 2/5, 3/5] from rfl,
      show corrTable2.axPhi = [0, 360] from rfl]
  simp only [axisFindBin]
  rw [ub_q2_ev0, ub_t_ev0, ub_xb_ev0, ub_phi_ev0]

/-- Counterexample to claim C7: with the correction enabled and a table
loaded whose sparse storage has no entry at the query point,
GetCorrectionFactor returns 0.0 (the THnSparseD content of an unfilled
bin), not the default 1.0 the claim promises for points without an
entry. -/
theorem correctionFactor_counterexample :
    GetCorrectionFactor true (some emptyTable) (1/2) (1/2) (1/2) 190 = 0 ∧
    GetCorrectionFactor true (some emptyTable) (1/2) (1/2) (1/2) 190 ≠ 1 := by
  have h0 : GetCorrectionFactor true (some emptyTable) (1/2) (1/2) (1/2) 190 = 0 := by
    show sparseGetBinContent emptyTable _ = 0
    simp [sparseGetBinContent, tableEntry, emptyTable]
  refine ⟨h0, ?_⟩
  rw [h0]
  norm_num

/-- Claim C7 (amended): the lookup returns 1.0 when the correction is
disabled or when no table is loaded; when enabled with a loaded table it
returns the stored factor of the enclosing 4-D bin when the sparse table
has an entry there, and 0.0 (not 1.0) when it has none. -/
theorem correctionFactor_spec (applyC : Bool) (tbl? : Option CorrTable)
    (Q2 t xB phi : ℚ) :
    (applyC = false ∨ tbl? = none →
      GetCorrectionFactor applyC tbl? Q2 t xB phi = 1) ∧
    (∀ tbl, applyC = true → tbl? = some tbl →
      ((∀ f, tableEntry tbl (lookupBins tbl Q2 t xB phi) = some f →
          GetCorrectionFactor applyC tbl? Q2 t xB phi = f) ∧
        (tableEntry tbl (lookupBins tbl Q2 t xB phi) = none →
          GetCorrectionFactor applyC tbl? Q2 t xB phi = 0))) := by
  constructor
  · rintro (rfl | rfl)
    · rfl
    · cases applyC <;> rfl
  · rintro tbl rfl rfl
    constructor
    · intro f hf
      show sparseGetBinContent tbl (lookupBins tbl Q2 t xB phi) = f
      rw [sparseGetBinContent, hf]
      rfl
    · intro hn
      show sparseGetBinContent tbl (lookupBins tbl Q2 t xB phi) = 0
      rw [sparseGetBinContent, hn]
      rfl

/-- Witness for the amended claim C7: the disabled case, a stored entry,
and a missing entry, each at a concrete input. -/
theorem correctionFactor_spec_witness :
    GetCorrectionFactor false none (1/2) (1/2) (1/2) 190 = 1 ∧
    GetCorrectionFactor true (some corrTable2) (3/2) (1/5) (3/20) 190 = 2 ∧
    GetCorrectionFactor true (some emptyTable) (1/2) (1/2) (1/2) 190 = 0 :=
  ⟨(correctionFactor_spec false none (1/2) (1/2) (1/2) 190).1 (Or.inl rfl),
   ((correctionFactor_spec true (some corrTable2) (3/2) (1/5) (3/20) 190).2
      corrTable2 rfl rfl).1 2
      (by rw [lookupBins_corr2]; simp [tableEntry, corrTable2, List.find?]),
   ((correctionFactor_spec true (some emptyTable) (1/2) (1/2) (1/2) 190).2
      emptyTable rfl rfl).2 (by simp [tableEntry, emptyTable])⟩

/-- Counterexample to claim C4 as stated: with the four input grids all
equal and a bin whose content is 0, the output ratio bin is 0, not 1
(ROOT Divide writes 0 when the denominator bin content is 0). -/
theorem pi0Corr_counterexample :
    CalcPi0Corr (fun _ _ => 0) (fun _ _ => 0) (fun _ _ => 0) (fun _ _ => 0) (0, 0, 0) 1 = 0 ∧
    (0 : ℚ) ≠ 1 := by
  constructor
  · simp [CalcPi0Corr, calcPi0CorrCell, histDivide, histMultiply]
  · norm_num

/-- Claim C4 (amended): under the ROOT Divide convention that a zero
denominator bin yields 0 (which agrees with the total division x/0 = 0 of
the rationals), each output bin equals (signalSimulation /
backgroundSimulation) * (backgroundData / signalData); when the
simulation histograms equal their data counterparts bin by bin the ratio
is 1 exactly in the bins whose contents are nonzero, while bins with zero
content give 0, not 1. -/
theorem pi0Corr_ratio (dvcs_mc pi0_mc dvcs_data pi0_data : ℕ × ℕ × ℕ → ℕ → ℚ)
    (p : ℕ × ℕ × ℕ) (i : ℕ) :
    CalcPi0Corr dvcs_mc pi0_mc dvcs_data pi0_data p i
      = (dvcs_mc p i / pi0_mc p i) * (pi0_data p i / dvcs_data p i) ∧
    (dvcs_mc p i = dvcs_data p i → pi0_mc p i = pi0_data p i →
      dvcs_mc p i ≠ 0 → pi0_mc p i ≠ 0 →
      CalcPi0Corr dvcs_mc pi0_mc dvcs_data pi0_data p i = 1) := by
  have hmain : CalcPi0Corr dvcs_mc pi0_mc dvcs_data pi0_data p i
      = (dvcs_mc p i / pi0_mc p i) * (pi0_data p i / dvcs_data p i) := by
    simp only [CalcPi0Corr, calcPi0CorrCell, histDivide, histMultiply]
    by_cases h2 : pi0_mc p i = 0
    · by_cases h4 : dvcs_data p i = 0
      · simp [h2, h4]
      · simp [h2, h4]
    · by_cases h4 : dvcs_data p i = 0
      · simp [h2, h4]
      · rw [if_neg h4, if_neg h2]
        ring
  refine ⟨hmain, ?_⟩
  intro h1 h2 ha hb
  rw [hmain, ← h1, ← h2, div_mul_div_comm, mul_comm (pi0_mc p i) (dvcs_mc p i),
      div_self (mul_ne_zero ha hb)]

/-- Witness for the amended claim C4: four identical all-ones grids give
ratio 1. -/
theorem pi0Corr_ratio_witness :
    CalcPi0Corr (fun _ _ => (1 : ℚ)) (fun _ _ => 1) (fun _ _ => 1) (fun _ _ => 1)
      (0, 0, 0) 1 = 1 :=
  (pi0Corr_ratio (fun _ _ => (1 : ℚ)) (fun _ _ => 1) (fun _ _ => 1) (fun _ _ => 1)
    (0, 0, 0) 1).2 rfl rfl one_ne_zero one_ne_zero

/-- Counterexample to claim C9: the incoming and outgoing lepton four
vectors (E,px,py,pz) = (1,0,0,1) and (1,1,0,0) have identical energies,
yet the momentum transfer invariant Q2 evaluates to 2, not 0. Equal
energies alone only force y = 0. -/
theorem elasticLimit_counterexample :
    LV.E ⟨1, 0, 0, 1⟩ = LV.E ⟨1, 1, 0, 0⟩ ∧
    kinQ2 ⟨1, 0, 0, 1⟩ ⟨1, 1, 0, 0⟩ = 2 ∧
    kinQ2 ⟨1, 0, 0, 1⟩ ⟨1, 1, 0, 0⟩ ≠ 0 := by
  refine ⟨rfl, ?_, ?_⟩ <;> norm_num [kinQ2, LV.sub, LV.mag2]

/-- Claim C9 (amended): when the incoming and outgoing lepton four
vectors have identical energies (and the beam energy is nonzero, since
the code divides by it), the inelasticity y is 0, and the momentum
transfer invariant Q2 equals the squared magnitude of the 3-momentum
difference; Q2 is therefore 0 exactly when the 3-momenta also agree, in
particular for identical four-vectors. -/
theorem elasticLimit_kinematics (e_in e_out : LV)
    (hE : e_in.E = e_out.E) (hne : e_in.E ≠ 0) :
    kinY e_in e_out = 0 ∧
    kinQ2 e_in e_out
      = (e_in.px - e_out.px)^2 + (e_in.py - e_out.py)^2 + (e_in.pz - e_out.pz)^2 ∧
    (e_in.px = e_out.px → e_in.py = e_out.py → e_in.pz = e_out.pz →
      kinQ2 e_in e_out = 0) := by
  have hq : kinQ2 e_in e_out
      = (e_in.px - e_out.px)^2 + (e_in.py - e_out.py)^2 + (e_in.pz - e_out.pz)^2 := by
    simp only [kinQ2, LV.sub, LV.mag2, hE]
    ring
  refine ⟨?_, hq, ?_⟩
  · simp [kinY, kinNu, LV.sub, hE]
  · intro h1 h2 h3
    rw [hq, h1, h2, h3]
    ring

/-- Witness for the amended claim C9 at identical beam four-vectors. -/
theorem elasticLimit_kinematics_witness :
    (LV.E ⟨1, 0, 0, 1⟩ : ℝ) ≠ 0 ∧
    kinY ⟨1, 0, 0, 1⟩ ⟨1, 0, 0, 1⟩ = 0 ∧
    kinQ2 ⟨1, 0, 0, 1⟩ ⟨1, 0, 0, 1⟩ = 0 :=
  ⟨one_ne_zero,
   (elasticLimit_kinematics ⟨1, 0, 0, 1⟩ ⟨1, 0, 0, 1⟩ rfl one_ne_zero).1,
   (elasticLimit_kinematics ⟨1, 0, 0, 1⟩ ⟨1, 0, 0, 1⟩ rfl one_ne_zero).2.2 rfl rfl rfl⟩

theorem shiftScale_range {a : ℝ} (h1 : -Real.pi < a) (h2 : a ≤ Real.pi) :
    0 < (a + Real.pi) * 180 / Real.pi ∧ (a + Real.pi) * 180 / Real.pi ≤ 360 := by
  have hpi := Real.pi_pos
  constructor
  · apply div_pos _ hpi
    nlinarith
  · rw [div_le_iff₀ hpi]
    nlinarith

/-- Claim C8 (amended): for every input, degenerate or not, the azimuthal
angle computed by ComputeKinematics lies in the half-open range
(0, 360] of degrees: atan2 ranges over (-pi, pi], so after the shift by
pi and the conversion to degrees the angle is strictly above 0 and can
reach exactly 360. -/
theorem phiDeg_range (einV eoutV poutV : V3) :
    0 < phiDeg einV eoutV poutV ∧ phiDeg einV eoutV poutV ≤ 360 := by
  unfold phiDeg atan2
  exact shiftScale_range (Complex.neg_pi_lt_arg _) (Complex.arg_le_pi _)

/-- Counterexample to claim C8: a non-degenerate event (both plane
normals nonzero) whose azimuthal angle evaluates to exactly 360 degrees,
outside the half-open range [0, 360) the claim asserts. -/
theorem phiDeg_counterexample :
    phiDeg ⟨0, 0, 2⟩ ⟨1, 0, 1⟩ ⟨-1, 0, 0⟩ = 360 ∧
    ¬ phiDeg ⟨0, 0, 2⟩ ⟨1, 0, 1⟩ ⟨-1, 0, 0⟩ < 360 := by
  have hsq4 : Real.sqrt 4 = 2 := by
    rw [show (4 : ℝ) = 2^2 by norm_num, Real.sqrt_sq (by norm_num)]
  have harg : atan2 0 (-1) = Real.pi := by
    unfold atan2
    rw [show (⟨-1, 0⟩ : ℂ) = (-1 : ℂ) from Complex.ext (by simp) (by simp)]
    exact Complex.arg_neg_one
  have h360 : phiDeg ⟨0, 0, 2⟩ ⟨1, 0, 1⟩ ⟨-1, 0, 0⟩ = 360 := by
    unfold phiDeg
    simp only [V3.sub, V3.cross, V3.dot, V3.unit, V3.mag2, V3.smul]
    norm_num [hsq4, Real.sqrt_one]
    rw [harg]
    field_simp
    ring
  exact ⟨h360, by rw [h360]; norm_num⟩

theorem alloc_next (st : Heap) (h : Hist) : (st.alloc h).1.next = st.next + 1 := rfl

theorem alloc_id (st : Heap) (h : Hist) : (st.alloc h).2 = st.next := rfl

theorem alloc_data_old (st : Heap) (h : Hist) {n : ℕ} (hn : n ≠ st.next) :
    (st.alloc h).1.data n = st.data n := by
  simp [Heap.alloc, hn]

theorem alloc_data_new (st : Heap) (h : Hist) : (st.alloc h).1.data st.next = h := by
  simp [Heap.alloc]

theorem bsaT_next (pol : ℚ) (ix iq : ℕ) :
    ∀ (ps ms : List (Option ℕ)) (st : Heap) (it : ℕ),
      st.next ≤ (bsaT pol ix iq st it ps ms).1.next := by
  intro ps
  induction ps with
  | nil =>
    intro ms st it
    cases ms <;> simp [bsaT]
  | cons hp? ps ih =>
    intro ms st it
    cases ms with
    | nil => simp [bsaT]
    | cons hm? ms =>
      cases hp? with
      | none => simpa [bsaT] using ih ms st (it + 1)
      | some p =>
        cases hm? with
        | none => simpa [bsaT] using ih ms st (it + 1)
        | some m =>
          simp only [bsaT]
          exact le_trans (Nat.le_succ st.next)
            (ih ms ((st.alloc (asymHist (st.data p) (st.data m) pol)).1) (it + 1))

theorem bsaT_frame (pol : ℚ) (ix iq : ℕ) :
    ∀ (ps ms : List (Option ℕ)) (st : Heap) (it : ℕ) (n : ℕ), n < st.next →
      ((bsaT pol ix iq st it ps ms).1).data n = st.data n := by
  intro ps
  induction ps with
  | nil =>
    intro ms st it n hn
    cases ms <;> simp [bsaT]
  | cons hp? ps ih =>
    intro ms st it n hn
    cases ms with
    | nil => simp [bsaT]
    | cons hm? ms =>
      cases hp? with
      | none => simpa [bsaT] using ih ms st (it + 1) n hn
      | some p =>
        cases hm? with
        | none => simpa [bsaT] using ih ms st (it + 1) n hn
        | some m =>
          simp only [bsaT]
          rw [ih ms ((st.alloc (asymHist (st.data p) (st.data m) pol)).1) (it + 1) n
            (by rw [alloc_next]; omega)]
          exact alloc_data_old st _ (by omega)

theorem bsaQ_next (pol : ℚ) (ix : ℕ) :
    ∀ (ps ms : List (List (Option ℕ))) (st : Heap) (iq : ℕ),
      st.next ≤ (bsaQ pol ix st iq ps ms).1.next := by
  intro ps
  induction ps with
  | nil =>
    intro ms st iq
    cases ms <;> simp [bsaQ]
  | cons tp ps ih =>
    intro ms st iq
    cases ms with
    | nil => simp [bsaQ]
    | cons tm ms =>
      simp only [bsaQ]
      by_cases hlen : tp.length ≠ tm.length
      · simp [hlen]
      · simp only [hlen, if_false]
        exact le_trans (bsaT_next pol ix iq tp tm st 0)
          (ih ms ((bsaT pol ix iq st 0 tp tm).1) (iq + 1))

theorem bsaQ_frame (pol : ℚ) (ix : ℕ) :
    ∀ (ps ms : List (List (Option ℕ))) (st : Heap) (iq : ℕ) (n : ℕ), n < st.next →
      ((bsaQ pol ix st iq ps ms).1).data n = st.data n := by
  intro ps
  induction ps with
  | nil =>
    intro ms st iq n hn
    cases ms <;> simp [bsaQ]
  | cons tp ps ih =>
    intro ms st iq n hn
    cases ms with
    | nil => simp [bsaQ]
    | cons tm ms =>
      simp only [bsaQ]
      by_cases hlen : tp.length ≠ tm.length
      · simp [hlen]
      · simp only [hlen, if_false]
        rw [ih ms ((bsaT pol ix iq st 0 tp tm).1) (iq + 1) n
          (lt_of_lt_of_le hn (bsaT_next pol ix iq tp tm st 0))]
        exact bsaT_frame pol ix iq tp tm st 0 n hn

theorem bsaX_next (pol : ℚ) :
    ∀ (ps ms : PtrGrid3) (st : Heap) (ix : ℕ),
      st.next ≤ (bsaX pol st ix ps ms).1.next := by
  intro ps
  induction ps with
  | nil =>
    intro ms st ix
    cases ms <;> simp [bsaX]
  | cons qp ps ih =>
    intro ms st ix
    cases ms with
    | nil => simp [bsaX]
    | cons qm ms =>
      simp only [bsaX]
      by_cases hlen : qp.length ≠ qm.length
      · simp [hlen]
      · simp only [hlen, if_false]
        rcases hp2 : (bsaQ pol ix st 0 qp qm).2.2 with _ | g2
        · simp only [hp2]
          exact bsaQ_next pol ix qp qm st 0
        · simp only [hp2]
          exact le_trans (bsaQ_next pol ix qp qm st 0)
            (ih ms ((bsaQ pol ix st 0 qp qm).1) (ix + 1))

theorem bsaX_frame (pol : ℚ) :
    ∀ (ps ms : PtrGrid3) (st : Heap) (ix : ℕ) (n : ℕ), n < st.next →
      ((bsaX pol st ix ps ms).1).data n = st.data n := by
  intro ps
  induction ps with
  | nil =>
    intro ms st ix n hn
    cases ms <;> simp [bsaX]
  | cons qp ps ih =>
    intro ms st ix n hn
    cases ms with
    | nil => simp [bsaX]
    | cons qm ms =>
      simp only [bsaX]
      by_cases hlen : qp.length ≠ qm.length
      · simp [hlen]
      · simp only [hlen, if_false]
        rcases hp2 : (bsaQ pol ix st 0 qp qm).2.2 with _ | g2
        · simp only [hp2]
          exact bsaQ_frame pol ix qp qm st 0 n hn
        · simp only [hp2]
          rw [ih ms ((bsaQ pol ix st 0 qp qm).1) (ix + 1) n
            (lt_of_lt_of_le hn (bsaQ_next pol ix qp qm st 0))]
          exact bsaQ_frame pol ix qp qm st 0 n hn

theorem computeBSA_frame (st : Heap) (pos neg : PtrGrid3) (pol : ℚ) (n : ℕ)
    (hn : n < st.next) :
    ((ComputeBeamSpinAsymmetry st pos neg pol).1).data n = st.data n := by
  unfold ComputeBeamSpinAsymmetry
  by_cases hlen : pos.length ≠ neg.length
  · simp [hlen]
  · simp only [hlen, if_false]
    rcases hr : (bsaX pol st 0 pos neg).2.2 with _ | g
    · simp only [hr]
      exact bsaX_frame pol pos neg st 0 n hn
    · simp only [hr]
      exact bsaX_frame pol pos neg st 0 n hn

/-- Claim C10: ComputeBeamSpinAsymmetry leaves both input grids
unchanged: for every histogram referenced from a cell of sigma_pos or
sigma_neg (a valid heap address), every bin content and bin error is the
same in the heap after the call as before; the output is built only from
freshly cloned histograms. -/
theorem beamSpinAsymmetry_preserves_inputs (st : Heap) (pos neg : PtrGrid3) (pol : ℚ)
    (ix iq it : ℕ) (q : ℕ)
    (hq : cellAt pos ix iq it = some q ∨ cellAt neg ix iq it = some q)
    (hvalid : q < st.next) :
    ∀ b : ℕ,
      (((ComputeBeamSpinAsymmetry st pos neg pol).1).data q).content b
        = (st.data q).content b ∧
      (((ComputeBeamSpinAsymmetry st pos neg pol).1).data q).error b
        = (st.data q).error b := by
  have hframe := computeBSA_frame st pos neg pol q hvalid
  intro b
  rw [hframe]
  exact ⟨rfl, rfl⟩

/-- Witness for claim C10 at a concrete heap and concrete 1 by 1 by 1
grids. -/
theorem beamSpinAsymmetry_preserves_inputs_witness :
    (cellAt posG 0 0 0 = some 0 ∨ cellAt negG 0 0 0 = some 0) ∧ 0 < heapW.next ∧
    ∀ b : ℕ,
      (((ComputeBeamSpinAsymmetry heapW posG negG 1).1).data 0).content b
        = (heapW.data 0).content b ∧
      (((ComputeBeamSpinAsymmetry heapW posG negG 1).1).data 0).error b
        = (heapW.data 0).error b :=
  ⟨Or.inl rfl, by decide,
   beamSpinAsymmetry_preserves_inputs heapW posG negG 1 0 0 0 0 (Or.inl rfl) (by decide)⟩

theorem bsaT_cell (pol : ℚ) (ix iq : ℕ) :
    ∀ (ps ms : List (Option ℕ)) (st : Heap) (it k : ℕ) (p m : ℕ),
      ps.getD k none = some p → ms.getD k none = some m →
      p < st.next → m < st.next →
      ∃ nid, (bsaT pol ix iq st it ps ms).2.2.getD k none = some nid ∧
        ((bsaT pol ix iq st it ps ms).1).data nid
          = asymHist (st.data p) (st.data m) pol ∧
        nid < ((bsaT pol ix iq st it ps ms).1).next := by
  intro ps
  induction ps with
  | nil =>
    intro ms st it k p m h1 h2 hp hm
    simp at h1
  | cons hp? ps ih =>
    intro ms st it k p m h1 h2 hp hm
    cases ms with
    | nil => simp at h2
    | cons hm? ms =>
      cases k with
      | zero =>
        simp only [List.getD_cons_zero] at h1 h2
        subst h1
        subst h2
        simp only [bsaT]
        refine ⟨st.next, rfl, ?_, ?_⟩
        · rw [bsaT_frame pol ix iq ps ms
            ((st.alloc (asymHist (st.data p) (st.data m) pol)).1) (it + 1) st.next
            (by rw [alloc_next]; omega)]
          exact alloc_data_new st _
        · exact lt_of_lt_of_le (by rw [alloc_next]; omega)
            (bsaT_next pol ix iq ps ms
              ((st.alloc (asymHist (st.data p) (st.data m) pol)).1) (it + 1))
      | succ k =>
        simp only [List.getD_cons_succ] at h1 h2
        cases hp? with
        | none =>
          simpa [bsaT] using ih ms st (it + 1) k p m h1 h2 hp hm
        | some a =>
          cases hm? with
          | none =>
            simpa [bsaT] using ih ms st (it + 1) k p m h1 h2 hp hm
          | some c =>
            have hrec := ih ms ((st.alloc (asymHist (st.data a) (st.data c) pol)).1)
              (it + 1) k p m h1 h2
              (by rw [alloc_next]; omega) (by rw [alloc_next]; omega)
            rw [alloc_data_old st _ (show p ≠ st.next by omega),
                alloc_data_old st _ (show m ≠ st.next by omega)] at hrec
            simpa [bsaT] using hrec

theorem shapeEq2_length : ∀ (ps ms : List (List (Option ℕ))),
    shapeEq2 ps ms = true → ps.length = ms.length := by
  intro ps
  induction ps with
  | nil =>
    intro ms h
    cases ms with
    | nil => rfl
    | cons b bs => simp [shapeEq2] at h
  | cons a as ih =>
    intro ms h
    cases ms with
    | nil => simp [shapeEq2] at h
    | cons b bs =>
      simp only [shapeEq2, Bool.and_eq_true, beq_iff_eq] at h
      simp [ih bs h.2]

theorem shapeEq3_length : ∀ (ps ms : PtrGrid3),
    shapeEq3 ps ms = true → ps.length = ms.length := by
  intro ps
  induction ps with
  | nil =>
    intro ms h
    cases ms with
    | nil => rfl
    | cons b bs => simp [shapeEq3] at h
  | cons a as ih =>
    intro ms h
    cases ms with
    | nil => simp [shapeEq3] at h
    | cons b bs =>
      simp only [shapeEq3, Bool.and_eq_true] at h
      simp [ih bs h.2]

theorem bsaQ_some (pol : ℚ) (ix : ℕ) :
    ∀ (ps ms : List (List (Option ℕ))) (st : Heap) (iq : ℕ),
      shapeEq2 ps ms = true →
      ∃ g, (bsaQ pol ix st iq ps ms).2.2 = some g := by
  intro ps
  induction ps with
  | nil =>
    intro ms st iq h
    cases ms with
    | nil => exact ⟨[], rfl⟩
    | cons b bs => simp [shapeEq2] at h
  | cons tp ps ih =>
    intro ms st iq h
    cases ms with
    | nil => simp [shapeEq2] at h
    | cons tm ms =>
      simp only [shapeEq2, Bool.and_eq_true, beq_iff_eq] at h
      have hcond : ¬ tp.length ≠ tm.length := fun hh => hh h.1
      obtain ⟨g, hg⟩ := ih ms ((bsaT pol ix iq st 0 tp tm).1) (iq + 1) h.2
      simp only [bsaQ]
      rw [if_neg hcond]
      exact ⟨(bsaT pol ix iq st 0 tp tm).2.2 :: g, by simp [hg]⟩

theorem bsaQ_cell (pol : ℚ) (ix : ℕ) :
    ∀ (ps ms : List (List (Option ℕ))) (st : Heap) (iq j k : ℕ) (p m : ℕ),
      shapeEq2 ps ms = true →
      (ps.getD j []).getD k none = some p →
      (ms.getD j []).getD k none = some m →
      p < st.next → m < st.next →
      ∃ g, (bsaQ pol ix st iq ps ms).2.2 = some g ∧
      ∃ nid, (g.getD j []).getD k none = some nid ∧
        ((bsaQ pol ix st iq ps ms).1).data nid = asymHist (st.data p) (st.data m) pol ∧
        nid < ((bsaQ pol ix st iq ps ms).1).next := by
  intro ps
  induction ps with
  | nil =>
    intro ms st iq j k p m hsh h1 h2 hp hm
    simp at h1
  | cons tp ps ih =>
    intro ms st iq j k p m hsh h1 h2 hp hm
    cases ms with
    | nil => simp [shapeEq2] at hsh
    | cons tm ms =>
      simp only [shapeEq2, Bool.and_eq_true, beq_iff_eq] at hsh
      have hcond : ¬ tp.length ≠ tm.length := fun hh => hh hsh.1
      cases j with
      | zero =>
        simp only [List.getD_cons_zero] at h1 h2
        obtain ⟨nid, hnid, hdata, hlt⟩ := bsaT_cell pol ix iq tp tm st 0 k p m h1 h2 hp hm
        obtain ⟨g, hg⟩ := bsaQ_some pol ix ps ms ((bsaT pol ix iq st 0 tp tm).1) (iq + 1) hsh.2
        simp only [bsaQ]
        rw [if_neg hcond]
        refine ⟨(bsaT pol ix iq st 0 tp tm).2.2 :: g, by simp [hg], nid, by simpa using hnid,
          ?_, ?_⟩
        · rw [bsaQ_frame pol ix ps ms ((bsaT pol ix iq st 0 tp tm).1) (iq + 1) nid hlt]
          exact hdata
        · exact lt_of_lt_of_le hlt
            (bsaQ_next pol ix ps ms ((bsaT pol ix iq st 0 tp tm).1) (iq + 1))
      | succ j =>
        simp only [List.getD_cons_succ] at h1 h2
        have hrec := ih ms ((bsaT pol ix iq st 0 tp tm).1) (iq + 1) j k p m hsh.2 h1 h2
          (lt_of_lt_of_le hp (bsaT_next pol ix iq tp tm st 0))
          (lt_of_lt_of_le hm (bsaT_next pol ix iq tp tm st 0))
        rw [bsaT_frame pol ix iq tp tm st 0 p hp, bsaT_frame pol ix iq tp tm st 0 m hm] at hrec
        obtain ⟨g, hg, nid, hnid, hdata, hlt⟩ := hrec
        simp only [bsaQ]
        rw [if_neg hcond]
        exact ⟨(bsaT pol ix iq st 0 tp tm).2.2 :: g, by simp [hg], nid, by simpa using hnid,
          hdata, hlt⟩

theorem bsaX_some (pol : ℚ) :
    ∀ (ps ms : PtrGrid3) (st : Heap) (ix : ℕ),
      shapeEq3 ps ms = true →
      ∃ g, (bsaX pol st ix ps ms).2.2 = some g := by
  intro ps
  induction ps with
  | nil =>
    intro ms st ix h
    cases ms with
    | nil => exact ⟨[], rfl⟩
    | cons b bs => simp [shapeEq3] at h
  | cons qp ps ih =>
    intro ms st ix h
    cases ms with
    | nil => simp [shapeEq3] at h
    | cons qm ms =>
      simp only [shapeEq3, Bool.and_eq_true] at h
      have hcond : ¬ qp.length ≠ qm.length := fun hh => hh (shapeEq2_length qp qm h.1)
      obtain ⟨g2, hg2⟩ := bsaQ_some pol ix qp qm st 0 h.1
      obtain ⟨g, hg⟩ := ih ms ((bsaQ pol ix st 0 qp qm).1) (ix + 1) h.2
      simp only [bsaX]
      rw [if_neg hcond]
      simp only [hg2]
      exact ⟨g2 :: g, by simp [hg]⟩

theorem bsaX_cell (pol : ℚ) :
    ∀ (ps ms : PtrGrid3) (st : Heap) (ix i j k : ℕ) (p m : ℕ),
      shapeEq3 ps ms = true →
      ((ps.getD i []).getD j []).getD k none = some p →
      ((ms.getD i []).getD j []).getD k none = some m →
      p < st.next → m < st.next →
      ∃ g, (bsaX pol st ix ps ms).2.2 = some g ∧
      ∃ nid, ((g.getD i []).getD j []).getD k none = some nid ∧
        ((bsaX pol st ix ps ms).1).data nid = asymHist (st.data p) (st.data m) pol ∧
        nid < ((bsaX pol st ix ps ms).1).next := by
  intro ps
  induction ps with
  | nil =>
    intro ms st ix i j k p m hsh h1 h2 hp hm
    simp at h1
  | cons qp ps ih =>
    intro ms st ix i j k p m hsh h1 h2 hp hm
    cases ms with
    | nil => simp [shapeEq3] at hsh
    | cons qm ms =>
      simp only [shapeEq3, Bool.and_eq_true] at hsh
      have hcond : ¬ qp.length ≠ qm.length := fun hh => hh (shapeEq2_length qp qm hsh.1)
      cases i with
      | zero =>
        simp only [List.getD_cons_zero] at h1 h2
        obtain ⟨g2, hg2, nid, hnid, hdata, hlt⟩ :=
          bsaQ_cell pol ix qp qm st 0 j k p m hsh.1 h1 h2 hp hm
        obtain ⟨g, hg⟩ := bsaX_some pol ps ms ((bsaQ pol ix st 0 qp qm).1) (ix + 1) hsh.2
        simp only [bsaX]
        rw [if_neg hcond]
        simp only [hg2]
        refine ⟨g2 :: g, by simp [hg], nid, by simpa using hnid, ?_, ?_⟩
        · rw [bsaX_frame pol ps ms ((bsaQ pol ix st 0 qp qm).1) (ix + 1) nid hlt]
          exact hdata
        · exact lt_of_lt_of_le hlt
            (bsaX_next pol ps ms ((bsaQ pol ix st 0 qp qm).1) (ix + 1))
      | succ i =>
        simp only [List.getD_cons_succ] at h1 h2
        obtain ⟨g2, hg2⟩ := bsaQ_some pol ix qp qm st 0 hsh.1
        have hrec := ih ms ((bsaQ pol ix st 0 qp qm).1) (ix + 1) i j k p m hsh.2 h1 h2
          (lt_of_lt_of_le hp (bsaQ_next pol ix qp qm st 0))
          (lt_of_lt_of_le hm (bsaQ_next pol ix qp qm st 0))
        rw [bsaQ_frame pol ix qp qm st 0 p hp, bsaQ_frame pol ix qp qm st 0 m hm] at hrec
        obtain ⟨g, hg, nid, hnid, hdata, hlt⟩ := hrec
        simp only [bsaX]
        rw [if_neg hcond]
        simp only [hg2]
        exact ⟨g2 :: g, by simp [hg], nid, by simpa using hnid, hdata, hlt⟩

/-- Claim C3: for same-shaped input grids and nonzero beam polarization,
every output cell whose input cells hold histograms receives a fresh
histogram whose bins 1 to nbins hold A/pol with A = (Np-Nm)/(Np+Nm)
(0 when Np+Nm = 0) and E/pol with E = 2/(Np+Nm)^2 *
sqrt((Nm*Ep)^2 + (Np*Em)^2) (0 when Np+Nm = 0), where Np, Nm, Ep, Em are
the contents and errors of the input histograms; in particular Np = Nm
gives asymmetry 0. -/
theorem beamSpinAsymmetry_formula (st : Heap) (pos neg : PtrGrid3) (pol : ℚ)
    (ix iq it : ℕ) (p m : ℕ)
    (hsh : shapeEq3 pos neg = true)
    (hpol : pol ≠ 0)
    (hp : cellAt pos ix iq it = some p) (hm : cellAt neg ix iq it = some m)
    (hvp : p < st.next) (hvm : m < st.next) :
    ∃ nid, cellAt (ComputeBeamSpinAsymmetry st pos neg pol).2.2 ix iq it = some nid ∧
      ∀ b, 1 ≤ b → b ≤ (st.data p).nbins →
        ((((ComputeBeamSpinAsymmetry st pos neg pol).1).data nid).content b
          = (if (st.data p).content b + (st.data m).content b ≠ 0 then
              ((st.data p).content b - (st.data m).content b)
                / ((st.data p).content b + (st.data m).content b) else 0) / pol) ∧
        ((((ComputeBeamSpinAsymmetry st pos neg pol).1).data nid).error b
          = (if (st.data p).content b + (st.data m).content b ≠ 0 then
              2 / ((((st.data p).content b : ℝ) + ((st.data m).content b : ℝ))
                   * (((st.data p).content b : ℝ) + ((st.data m).content b : ℝ)))
                * Real.sqrt ((((st.data m).content b : ℝ) * (st.data p).error b)^2
                   + (((st.data p).content b : ℝ) * (st.data m).error b)^2)
             else 0) / (pol : ℝ)) ∧
        ((st.data p).content b = (st.data m).content b →
          (((ComputeBeamSpinAsymmetry st pos neg pol).1).data nid).content b = 0) := by
  have hlen : pos.length = neg.length := shapeEq3_length pos neg hsh
  obtain ⟨g, hg, nid, hnid, hdata, _⟩ :=
    bsaX_cell pol pos neg st 0 ix iq it p m hsh hp hm hvp hvm
  unfold ComputeBeamSpinAsymmetry
  rw [if_neg (fun hh => hh hlen)]
  simp only [hg]
  refine ⟨nid, hnid, ?_⟩
  intro b hb1 hb2
  rw [hdata]
  simp only [asymHist]
  have hcond : 1 ≤ b ∧ b ≤ (st.data p).nbins := ⟨hb1, hb2⟩
  simp only [if_pos hcond]
  refine ⟨trivial, trivial, ?_⟩
  intro heq
  rw [heq, sub_self]
  simp

/-- Witness for claim C3 at the concrete witness heap and grids. -/
theorem beamSpinAsymmetry_formula_witness :
    shapeEq3 posG negG = true ∧ (1 : ℚ) ≠ 0 ∧
    (∃ nid, cellAt (ComputeBeamSpinAsymmetry heapW posG negG 1).2.2 0 0 0 = some nid ∧
      ∀ b, 1 ≤ b → b ≤ (heapW.data 0).nbins →
        ((((ComputeBeamSpinAsymmetry heapW posG negG 1).1).data nid).content b
          = (if (heapW.data 0).content b + (heapW.data 1).content b ≠ 0 then
              ((heapW.data 0).content b - (heapW.data 1).content b)
                / ((heapW.data 0).content b + (heapW.data 1).content b) else 0) / 1) ∧
        ((((ComputeBeamSpinAsymmetry heapW posG negG 1).1).data nid).error b
          = (if (heapW.data 0).content b + (heapW.data 1).content b ≠ 0 then
              2 / ((((heapW.data 0).content b : ℝ) + ((heapW.data 1).content b : ℝ))
                   * (((heapW.data 0).content b : ℝ) + ((heapW.data 1).content b : ℝ)))
                * Real.sqrt ((((heapW.data 1).content b : ℝ) * (heapW.data 0).error b)^2
                   + (((heapW.data 0).content b : ℝ) * (heapW.data 1).error b)^2)
             else 0) / ((1 : ℚ) : ℝ)) ∧
        ((heapW.data 0).content b = (heapW.data 1).content b →
          (((ComputeBeamSpinAsymmetry heapW posG negG 1).1).data nid).content b = 0)) :=
  ⟨rfl, one_ne_zero,
   beamSpinAsymmetry_formula heapW posG negG 1 0 0 0 0 1 rfl one_ne_zero rfl rfl
     (by decide) (by decide)⟩

theorem bsaQ_mismatch (pol : ℚ) (ix : ℕ) :
    ∀ (ps ms : List (List (Option ℕ))) (st : Heap) (iq : ℕ),
      ps.length = ms.length → shapeEq2 ps ms = false →
      (bsaQ pol ix st iq ps ms).2.2 = none ∧
      ∃ k, BSAErr.tDim ix (iq + k) ∈ (bsaQ pol ix st iq ps ms).2.1 ∧
        (ps.getD k []).length ≠ (ms.getD k []).length := by
  intro ps
  induction ps with
  | nil =>
    intro ms st iq hlen hsh
    cases ms with
    | nil => simp [shapeEq2] at hsh
    | cons b bs => simp at hlen
  | cons tp ps ih =>
    intro ms st iq hlen hsh
    cases ms with
    | nil => simp at hlen
    | cons tm ms =>
      by_cases hrow : tp.length = tm.length
      · have hsh2 : shapeEq2 ps ms = false := by
          cases h2 : shapeEq2 ps ms
          · rfl
          · exfalso
            have : shapeEq2 (tp :: ps) (tm :: ms) = true := by
              simp [shapeEq2, hrow, h2]
            rw [this] at hsh
            simp at hsh
        have hcond : ¬ tp.length ≠ tm.length := fun hh => hh hrow
        obtain ⟨hnone, k, hmem, hk⟩ :=
          ih ms ((bsaT pol ix iq st 0 tp tm).1) (iq + 1) (by simpa using hlen) hsh2
        simp only [bsaQ]
        rw [if_neg hcond]
        refine ⟨by simp [hnone], k + 1, ?_, by simpa using hk⟩
        have harith : iq + (k + 1) = (iq + 1) + k := by omega
        rw [harith]
        exact List.mem_append_right _ hmem
      · simp only [bsaQ]
        rw [if_pos hrow]
        exact ⟨rfl, 0, by simp, by simpa using hrow⟩

theorem bsaX_mismatch (pol : ℚ) :
    ∀ (ps ms : PtrGrid3) (st : Heap) (ix : ℕ),
      ps.length = ms.length → shapeEq3 ps ms = false →
      (bsaX pol st ix ps ms).2.2 = none ∧
      ∃ e ∈ (bsaX pol st ix ps ms).2.1,
        (∃ k, e = BSAErr.q2Dim (ix + k) ∧ (ps.getD k []).length ≠ (ms.getD k []).length) ∨
        (∃ k j, e = BSAErr.tDim (ix + k) j ∧
          ((ps.getD k []).getD j []).length ≠ ((ms.getD k []).getD j []).length) := by
  intro ps
  induction ps with
  | nil =>
    intro ms st ix hlen hsh
    cases ms with
    | nil => simp [shapeEq3] at hsh
    | cons b bs => simp at hlen
  | cons qp ps ih =>
    intro ms st ix hlen hsh
    cases ms with
    | nil => simp at hlen
    | cons qm ms =>
      by_cases hq : qp.length = qm.length
      · by_cases hsh2 : shapeEq2 qp qm = true
        · have hsh3 : shapeEq3 ps ms = false := by
            cases h2 : shapeEq3 ps ms
            · rfl
            · exfalso
              have : shapeEq3 (qp :: ps) (qm :: ms) = true := by
                simp [shapeEq3, hsh2, h2]
              rw [this] at hsh
              simp at hsh
          have hcond : ¬ qp.length ≠ qm.length := fun hh => hh hq
          obtain ⟨g2, hg2⟩ := bsaQ_some pol ix qp qm st 0 hsh2
          obtain ⟨hnone, e, hmem, hprop⟩ :=
            ih ms ((bsaQ pol ix st 0 qp qm).1) (ix + 1) (by simpa using hlen) hsh3
          simp only [bsaX]
          rw [if_neg hcond]
          simp only [hg2]
          refine ⟨by simp [hnone], e, List.mem_append_right _ hmem, ?_⟩
          rcases hprop with ⟨k, he, hk⟩ | ⟨k, j, he, hkj⟩
          · refine Or.inl ⟨k + 1, ?_, by simpa using hk⟩
            rw [he]
            congr 1
            omega
          · refine Or.inr ⟨k + 1, j, ?_, by simpa using hkj⟩
            rw [he]
            congr 1
            omega
        · have hsh2f : shapeEq2 qp qm = false := by
            cases h2 : shapeEq2 qp qm
            · rfl
            · exact absurd h2 hsh2
          have hcond : ¬ qp.length ≠ qm.length := fun hh => hh hq
          obtain ⟨hnone2, k, hmem, hk⟩ := bsaQ_mismatch pol ix qp qm st 0 hq hsh2f
          simp only [bsaX]
          rw [if_neg hcond]
          simp only [hnone2]
          refine ⟨by trivial, BSAErr.tDim ix (0 + k), hmem, ?_⟩
          exact Or.inr ⟨0, 0 + k, by simp, by simpa using hk⟩
      · simp only [bsaX]
        rw [if_pos hq]
        refine ⟨by trivial, BSAErr.q2Dim ix, by simp, ?_⟩
        exact Or.inl ⟨0, by simp, by simpa using hq⟩

/-- Claim C6: whenever the two input grids differ in shape in any of the
three classifier dimensions, ComputeBeamSpinAsymmetry emits a
shape-mismatch diagnostic whose reported dimension and position genuinely
differ between the grids, and returns the empty grid (no partial
result). -/
theorem beamSpinAsymmetry_shape_mismatch (st : Heap) (pos neg : PtrGrid3) (pol : ℚ)
    (hsh : shapeEq3 pos neg = false) :
    (ComputeBeamSpinAsymmetry st pos neg pol).2.2 = [] ∧
    ((ComputeBeamSpinAsymmetry st pos neg pol).2.1).any
      (fun e => mismatchB e pos neg) = true := by
  unfold ComputeBeamSpinAsymmetry
  by_cases hlen : pos.length = neg.length
  · rw [if_neg (fun hh => hh hlen)]
    obtain ⟨hnone, e, hmem, hprop⟩ := bsaX_mismatch pol pos neg st 0 hlen hsh
    simp only [hnone]
    refine ⟨by trivial, ?_⟩
    rw [List.any_eq_true]
    refine ⟨e, hmem, ?_⟩
    rcases hprop with ⟨k, he, hk⟩ | ⟨k, j, he, hkj⟩
    · rw [he]
      simpa [mismatchB] using hk
    · rw [he]
      simpa [mismatchB] using hkj
  · rw [if_pos hlen]
    refine ⟨rfl, ?_⟩
    simpa [mismatchB] using hlen

/-- Witness for claim C6 at concretely mismatched grids. -/
theorem beamSpinAsymmetry_shape_mismatch_witness :
    shapeEq3 posG [] = false ∧
    ((ComputeBeamSpinAsymmetry heapW posG [] 1).2.2 = [] ∧
     ((ComputeBeamSpinAsymmetry heapW posG [] 1).2.1).any
       (fun e => mismatchB e posG []) = true) :=
  ⟨rfl, beamSpinAsymmetry_shape_mismatch heapW posG [] 1 rfl⟩

end DISANA
